import Mathlib

/-!
# The Tent boot program (`src/boot/boot.c`)

A shallow embedding of the RISC-V instruction-exercise program and the
properties of its functions.

Modelling conventions.

* An `int32_t` value is an `Int` in `[-2^31, 2^31 - 1]` (`InInt32`); a
  `uint32_t` value is a `Nat` below `2^32` (`InUint32`).  The target is a
  32-bit two's-complement machine: arithmetic results are reduced modulo
  `2^32` (`toInt32`, `toUint32`), as the instructions named in the comments
  of the source (`ADD`, `SUB`, `SLL`, ...) do.
* Bitwise operators act on the 32-bit two's-complement pattern of their
  operands (`toUint32`).
* `>>` on a signed operand is the arithmetic shift (`SRA`).
* Memory is an explicit little-endian byte-addressed map with 32-bit
  addresses on which every access succeeds.
* A `volatile` automatic variable is an object in that memory: its
  initialisation is a store and each read of it is a load, at the address the
  compiler gave it (`Frames`).  The operands of a comparison are read left to
  right.  The other automatic variables (`ptr`, `func_ptr`) are local values.
* The addresses the linker gives to `stack_top` and `auipc_test` and the
  addresses of the volatile automatic variables are parameters (`Layout`).
  A layout keeps those variables clear of the word at `&stack_top - 0x1000`,
  which the program uses through a pointer.
* The state carries a log of the calls performed and of the memory accesses
  performed, so that call order and access addresses can be stated.
-/

set_option linter.unusedVariables false

namespace Boot

/-! ## 32-bit machine integers -/

/-- Range of `int32_t`. -/
def InInt32 (x : Int) : Prop := -2147483648 ≤ x ∧ x ≤ 2147483647

instance (x : Int) : Decidable (InInt32 x) := by
  unfold InInt32; infer_instance

/-- Range of `uint32_t`. -/
def InUint32 (n : Nat) : Prop := n < 4294967296

instance (n : Nat) : Decidable (InUint32 n) := by
  unfold InUint32; infer_instance

/-- Conversion to `uint32_t`: the residue modulo `2^32`, which for an
`int32_t` value is its two's-complement bit pattern. -/
def toUint32 (x : Int) : Nat := (x % 4294967296).toNat

/-- Conversion to `int32_t`: the representative of `x` modulo `2^32` in
`[-2^31, 2^31 - 1]`. -/
def toInt32 (x : Int) : Int :=
  if x % 4294967296 < 2147483648 then x % 4294967296 else x % 4294967296 - 4294967296

/-- Bit `i` of the two's-complement pattern of an `int32_t` value. -/
def bit32 (a : Int) (i : Nat) : Bool := (toUint32 a).testBit i

/-- C `a ^ b` on `int`. -/
def bitxor (a b : Int) : Int := toInt32 ((toUint32 a ^^^ toUint32 b : Nat) : Int)

/-- C `a | b` on `int`. -/
def bitor (a b : Int) : Int := toInt32 ((toUint32 a ||| toUint32 b : Nat) : Int)

/-- C `a & b` on `int`. -/
def bitand (a b : Int) : Int := toInt32 ((toUint32 a &&& toUint32 b : Nat) : Int)

/-- C `a << n` on `int` as the `SLL` instruction computes it: the pattern of
`a` moved `n` places to the left, the bits leaving the word dropped. -/
def shl (a : Int) (n : Nat) : Int := toInt32 ((toUint32 a <<< n : Nat) : Int)

/-- C `a >> n` on a signed `int`: the arithmetic shift (`SRA`). -/
def shr (a : Int) (n : Nat) : Int := a >>> n

/-! ## The arithmetic leaf functions (boot.c lines 31-39) -/

/-- Source: `int32_t add(int32_t a, int32_t b) { return a + b; }`. -/
def add (a b : Int) : Int := toInt32 (a + b)

/-- Source: `int32_t sub(int32_t a, int32_t b) { return a - b; }`. -/
def sub (a b : Int) : Int := toInt32 (a - b)

/-- Source: `int32_t xor_op(int32_t a, int32_t b) { return a ^ b; }`. -/
def xor_op (a b : Int) : Int := bitxor a b

/-- Source: `int32_t or_op(int32_t a, int32_t b) { return a | b; }`. -/
def or_op (a b : Int) : Int := bitor a b

/-- Source: `int32_t and_op(int32_t a, int32_t b) { return a & b; }`. -/
def and_op (a b : Int) : Int := bitand a b

/-- Source: `int32_t sll(int32_t a, int32_t b) { return a << (b & 31); }`. -/
def sll (a b : Int) : Int := shl a (bitand b 31).toNat

/-- Source: `int32_t slt(int32_t a, int32_t b) { return a < b; }`. -/
def slt (a b : Int) : Int := if a < b then 1 else 0

/-- Source: `int32_t sltu(uint32_t a, uint32_t b) { return a < b; }`. -/
def sltu (a b : Nat) : Int := if a < b then 1 else 0

/-- Source: `int32_t sr(int32_t a, int32_t b) { return a >> (b & 31); }`. -/
def sr (a b : Int) : Int := shr a (bitand b 31).toNat

/-! ## Program state -/

/-- The functions of boot.c. -/
inductive Fn
  | add | sub | xor_op | or_op | and_op | sll | slt | sltu | sr
  | lui_test | auipc_test | jal_test | jalr_target | jalr_test
  | branch_tests | load_tests | store_tests | main
  deriving DecidableEq, Repr

/-- One performed call: who called whom, with which argument values. -/
structure Call where
  caller : Fn
  callee : Fn
  args : List Int
  deriving DecidableEq, Repr

/-- One performed memory access of `width` bytes at byte address `addr`. -/
inductive Access
  | load (width addr : Nat)
  | store (width addr value : Nat)
  deriving DecidableEq, Repr

/-- Machine state: byte-addressed memory, and the logs of calls and of
memory accesses, oldest first. -/
structure State where
  mem : Nat → Nat
  calls : List Call
  accesses : List Access

/-- Pointer arithmetic `p - n` on a pointer to `uint32_t`: `n` elements of
four bytes, on 32-bit addresses. -/
def ptr_sub_u32 (p n : Nat) : Nat := (p + (4294967296 - (n * 4) % 4294967296)) % 4294967296

/-- The byte addresses of the 32-bit word at `p`. -/
def wordBytes (p : Nat) : List Nat :=
  [p % 4294967296, (p + 1) % 4294967296, (p + 2) % 4294967296, (p + 3) % 4294967296]

/-- The byte addresses of the `n` bytes at `p`. -/
def bytesAt (p n : Nat) : List Nat := (List.range n).map (fun i => (p + i) % 4294967296)

/-- The addresses the compiler gives to the volatile automatic variables:
`a` and `b` of `branch_tests` (line 55), and `b`, `bu`, `h`, `hu`, `w` of
`load_tests` (lines 66-70). -/
structure Frames where
  branch_a : Nat
  branch_b : Nat
  load_b : Nat
  load_bu : Nat
  load_h : Nat
  load_hu : Nat
  load_w : Nat

/-- The bytes of the volatile variables of `branch_tests`: two `int`. -/
def Frames.branchBytes (f : Frames) : List Nat := bytesAt f.branch_a 4 ++ bytesAt f.branch_b 4

/-- The bytes of the volatile variables of `load_tests`: `int8_t`, `uint8_t`,
`int16_t`, `uint16_t` and `int32_t`. -/
def Frames.loadBytes (f : Frames) : List Nat :=
  bytesAt f.load_b 1 ++ bytesAt f.load_bu 1 ++ bytesAt f.load_h 2 ++ bytesAt f.load_hu 2 ++
    bytesAt f.load_w 4

/-- The bytes of all the volatile automatic variables. -/
def Frames.bytes (f : Frames) : List Nat := f.branchBytes ++ f.loadBytes

/-- Addresses the program refers to: those the linker gives to `stack_top`
and `auipc_test`, and those of the volatile automatic variables, none of
which lies in the word at `&stack_top - 0x1000`. -/
structure Layout where
  stack_top : Nat
  auipc_test : Nat
  frames : Frames
  frames_clear : ∀ x, x ∈ frames.bytes → x ∉ wordBytes (ptr_sub_u32 stack_top 0x1000)

/-- A C function body run on a state: its return value and the state after. -/
abbrev Exec (α : Type) := State → α × State

/-- A body that only returns a value. -/
def ret {α : Type} (a : α) : Exec α := fun s => (a, s)

/-- A call statement: log the call, then run the callee. -/
def call {α : Type} (caller callee : Fn) (args : List Int) (body : Exec α) : Exec α :=
  fun s => body { s with calls := s.calls ++ [⟨caller, callee, args⟩] }

/-! ## Memory accesses (little-endian, 32-bit addresses) -/

/-- Unsigned value of the `n` bytes at `addr`, least significant byte first. -/
def loadLE (m : Nat → Nat) (addr : Nat) : Nat → Nat
  | 0 => 0
  | n + 1 => m (addr % 4294967296) % 256 + 256 * loadLE m (addr + 1) n

/-- Memory after writing the low `n` bytes of `v` at `addr`, least
significant byte first. -/
def storeLE (m : Nat → Nat) (addr v : Nat) : Nat → (Nat → Nat)
  | 0 => m
  | n + 1 =>
    storeLE (fun x => if x = addr % 4294967296 then v % 256 else m x) (addr + 1) (v / 256) n

/-- Sign extension of a `bits`-wide pattern. -/
def signExtend (bits : Nat) (v : Nat) : Int :=
  if v % 2 ^ bits < 2 ^ (bits - 1) then (v % 2 ^ bits : Nat) else (v % 2 ^ bits : Nat) - (2 ^ bits : Nat)

/-- A load of `width` bytes: the unsigned value read, the access logged. -/
def load (width addr : Nat) : Exec Nat := fun s =>
  (loadLE s.mem addr width,
   { s with accesses := s.accesses ++ [Access.load width (addr % 4294967296)] })

/-- A store of the low `width` bytes of `v`, the access logged. -/
def store (width addr v : Nat) (s : State) : State :=
  { s with
    mem := storeLE s.mem addr v width
    accesses := s.accesses ++ [Access.store width (addr % 4294967296) (v % 256 ^ width)] }

/-! ## The remaining functions (boot.c lines 41-107) -/

/-- Source: `int32_t lui_test() { return 0x12345000; }`. -/
def lui_test : Int := 0x12345000

/-- Source: `int32_t auipc_test() { return (int32_t) &auipc_test; }`. -/
def auipc_test (L : Layout) : Int := toInt32 L.auipc_test

/-- Source: `int32_t jal_test() { return auipc_test(); }`. -/
def jal_test (L : Layout) : Exec Int :=
  call Fn.jal_test Fn.auipc_test [] (ret (auipc_test L))

/-- Source: `void jalr_target() {}`. -/
def jalr_target : Exec Unit := ret ()

/-- Source: `void jalr_test() { void (*func_ptr)() = jalr_target; func_ptr(); }`. -/
def jalr_test : Exec Unit :=
  let func_ptr : Fn × Exec Unit := (Fn.jalr_target, jalr_target)
  call Fn.jalr_test func_ptr.1 [] func_ptr.2

/-- Source: `branch_tests` (lines 54-62): the volatile `a` and `b` are
stored, then read for each of the six comparisons, whose branches are empty. -/
def branch_tests (L : Layout) : Exec Unit := fun s =>
  let s := store 4 L.frames.branch_a (toUint32 10) s
  let s := store 4 L.frames.branch_b (toUint32 20) s
  let a := load 4 L.frames.branch_a s
  let b := load 4 L.frames.branch_b a.2
  let beq : Unit := if signExtend 32 a.1 = signExtend 32 b.1 then () else ()
  let a := load 4 L.frames.branch_a b.2
  let b := load 4 L.frames.branch_b a.2
  let bne : Unit := if signExtend 32 a.1 ≠ signExtend 32 b.1 then () else ()
  let a := load 4 L.frames.branch_a b.2
  let b := load 4 L.frames.branch_b a.2
  let blt : Unit := if signExtend 32 a.1 < signExtend 32 b.1 then () else ()
  let a := load 4 L.frames.branch_a b.2
  let b := load 4 L.frames.branch_b a.2
  let bge : Unit := if signExtend 32 a.1 ≥ signExtend 32 b.1 then () else ()
  let a := load 4 L.frames.branch_a b.2
  let b := load 4 L.frames.branch_b a.2
  let bltu : Unit :=
    if toUint32 (signExtend 32 a.1) < toUint32 (signExtend 32 b.1) then () else ()
  let a := load 4 L.frames.branch_a b.2
  let b := load 4 L.frames.branch_b a.2
  let bgeu : Unit :=
    if toUint32 (signExtend 32 a.1) ≥ toUint32 (signExtend 32 b.1) then () else ()
  ((), b.2)

/-- Source: `load_tests` (lines 64-71): five loads from
`&stack_top - 0x1000`, each value stored to the volatile variable it
initialises. -/
def load_tests (L : Layout) : Exec Unit := fun s =>
  let ptr := ptr_sub_u32 L.stack_top 0x1000
  let r := load 1 ptr s
  let b : Int := signExtend 8 r.1
  let s := store 1 L.frames.load_b (toUint32 b) r.2
  let r := load 1 ptr s
  let bu : Nat := r.1
  let s := store 1 L.frames.load_bu bu r.2
  let r := load 2 ptr s
  let h : Int := signExtend 16 r.1
  let s := store 2 L.frames.load_h (toUint32 h) r.2
  let r := load 2 ptr s
  let hu : Nat := r.1
  let s := store 2 L.frames.load_hu hu r.2
  let r := load 4 ptr s
  let w : Int := signExtend 32 r.1
  let s := store 4 L.frames.load_w (toUint32 w) r.2
  ((), s)

/-- Source: `store_tests` (lines 73-78): a byte, a halfword and a word
store to `&stack_top - 0x1000`. -/
def store_tests (L : Layout) : Exec Unit := fun s =>
  let ptr := ptr_sub_u32 L.stack_top 0x1000
  let s := store 1 ptr (toUint32 0x12) s
  let s := store 2 ptr (toUint32 0x1234) s
  let s := store 4 ptr (toUint32 0x12345678) s
  ((), s)

/-- The sixteen functions `main` calls, as it sees them: by prototype. -/
structure Callees where
  add : Int → Int → Exec Int
  sub : Int → Int → Exec Int
  xor_op : Int → Int → Exec Int
  or_op : Int → Int → Exec Int
  and_op : Int → Int → Exec Int
  sll : Int → Int → Exec Int
  slt : Int → Int → Exec Int
  sltu : Nat → Nat → Exec Int
  sr : Int → Int → Exec Int
  lui_test : Exec Int
  auipc_test : Exec Int
  jal_test : Exec Int
  jalr_test : Exec Unit
  branch_tests : Exec Unit
  load_tests : Exec Unit
  store_tests : Exec Unit

/-- The definitions of boot.c for the sixteen prototypes. -/
def linked (L : Layout) : Callees where
  add := fun a b => ret (Boot.add a b)
  sub := fun a b => ret (Boot.sub a b)
  xor_op := fun a b => ret (Boot.xor_op a b)
  or_op := fun a b => ret (Boot.or_op a b)
  and_op := fun a b => ret (Boot.and_op a b)
  sll := fun a b => ret (Boot.sll a b)
  slt := fun a b => ret (Boot.slt a b)
  sltu := fun a b => ret (Boot.sltu a b)
  sr := fun a b => ret (Boot.sr a b)
  lui_test := ret Boot.lui_test
  auipc_test := ret (Boot.auipc_test L)
  jal_test := Boot.jal_test L
  jalr_test := Boot.jalr_test
  branch_tests := Boot.branch_tests L
  load_tests := Boot.load_tests L
  store_tests := Boot.store_tests L

/-- Source: the body of `main` (lines 80-107) over the prototypes: sixteen
call statements, each value dropped, then `return 0`. -/
def main_body (c : Callees) : Exec Int := fun s =>
  let s := (call Fn.main Fn.add [1, 2] (c.add 1 2) s).2
  let s := (call Fn.main Fn.sub [3, 2] (c.sub 3 2) s).2
  let s := (call Fn.main Fn.xor_op [5, 3] (c.xor_op 5 3) s).2
  let s := (call Fn.main Fn.or_op [6, 2] (c.or_op 6 2) s).2
  let s := (call Fn.main Fn.and_op [4, 7] (c.and_op 4 7) s).2
  let s := (call Fn.main Fn.sll [1, 2] (c.sll 1 2) s).2
  let s := (call Fn.main Fn.slt [1, 2] (c.slt 1 2) s).2
  let s := (call Fn.main Fn.sltu [1, 2] (c.sltu (toUint32 1) (toUint32 2)) s).2
  let s := (call Fn.main Fn.sr [8, 2] (c.sr 8 2) s).2
  let s := (call Fn.main Fn.lui_test [] c.lui_test s).2
  let s := (call Fn.main Fn.auipc_test [] c.auipc_test s).2
  let s := (call Fn.main Fn.jal_test [] c.jal_test s).2
  let s := (call Fn.main Fn.jalr_test [] c.jalr_test s).2
  let s := (call Fn.main Fn.branch_tests [] c.branch_tests s).2
  let s := (call Fn.main Fn.load_tests [] c.load_tests s).2
  let s := (call Fn.main Fn.store_tests [] c.store_tests s).2
  (0, s)

/-- Source: `int main()` of boot.c, linked with the definitions of the file. -/
def main (L : Layout) : Exec Int := main_body (linked L)

/-! ## Vocabulary of the properties -/

/-- A body that leaves every byte of memory as it was and performs no
memory access. -/
def NoMemoryEffect {α : Type} (e : Exec α) : Prop :=
  ∀ s : State, (e s).2.mem = s.mem ∧ (e s).2.accesses = s.accesses

/-- The kind (store or load), width and address of an access. -/
def Access.shape : Access → Bool × Nat × Nat
  | Access.load w a => (false, w, a)
  | Access.store w a _ => (true, w, a)

/-- Whether an access is a store. -/
def Access.isStore (a : Access) : Bool := a.shape.1

/-- Sample addresses of the volatile variables, a few bytes below the top
of the stack. -/
def sampleFrames : Frames :=
  ⟨0x8000FFDC, 0x8000FFD8, 0x8000FFDF, 0x8000FFDE, 0x8000FFDC, 0x8000FFDA, 0x8000FFD4⟩

/-- A sample layout: `stack_top` at 0x80010000, `auipc_test` at 0x80000040,
the volatile variables at `sampleFrames`. -/
def sampleLayout : Layout := ⟨0x80010000, 0x80000040, sampleFrames, by decide⟩

/-- A sample initial state: every byte is 0xA5, both logs are empty. -/
def sampleState : State := ⟨fun _ => 0xA5, [], []⟩

/-- The value the RISC-V `LUI` instruction writes for the 20-bit immediate
`imm`: the immediate in bits 31..12 and zeros in bits 11..0. -/
def luiValue (imm : Nat) : Int := toInt32 (((imm % 1048576) * 4096 : Nat) : Int)

theorem toInt32_inInt32 (x : Int) : InInt32 (toInt32 x) := by
  unfold InInt32 toInt32
  split <;> omega

theorem toInt32_modEq (x : Int) : toInt32 x ≡ x [ZMOD 4294967296] := by
  unfold Int.ModEq toInt32
  split <;> omega

theorem toInt32_of_inInt32 (x : Int) (h : InInt32 x) : toInt32 x = x := by
  unfold InInt32 at h
  unfold toInt32
  split <;> omega

theorem toUint32_lt (x : Int) : toUint32 x < 4294967296 := by
  unfold toUint32
  omega

theorem toUint32_modEq (x : Int) : ((toUint32 x : Nat) : Int) ≡ x [ZMOD 4294967296] := by
  unfold Int.ModEq toUint32
  omega

theorem toUint32_toInt32 (x : Int) : toUint32 (toInt32 x) = toUint32 x := by
  unfold toUint32 toInt32
  split <;> omega

theorem toUint32_natCast (n : Nat) (h : n < 4294967296) : toUint32 (n : Int) = n := by
  unfold toUint32
  omega

theorem bitand_31 (b : Int) : bitand b 31 = b % 32 := by
  have h31 : toUint32 31 = 2 ^ 5 - 1 := by decide
  unfold bitand
  rw [h31, Nat.and_pow_two_sub_one_eq_mod]
  have := toUint32_lt b
  unfold toUint32 at *
  unfold toInt32
  split <;> omega

theorem bit32_toInt32_natCast (n i : Nat) (h : n < 4294967296) :
    bit32 (toInt32 (n : Int)) i = n.testBit i := by
  unfold bit32
  rw [toUint32_toInt32, toUint32_natCast n h]

theorem shl_modEq (a : Int) (n : Nat) : shl a n ≡ a * 2 ^ n [ZMOD 4294967296] := by
  unfold shl
  rw [Nat.shiftLeft_eq]
  refine (toInt32_modEq _).trans ?_
  push_cast
  exact (toUint32_modEq a).mul_right _

/-! ## Lemmas on the execution of `main` -/

theorem storeLE_frame (n : Nat) : ∀ (m : Nat → Nat) (addr v x : Nat),
    (∀ i, i < n → x ≠ (addr + i) % 4294967296) → storeLE m addr v n x = m x := by
  induction n with
  | zero => intro m addr v x _; rfl
  | succ n ih =>
    intro m addr v x hx
    rw [storeLE, ih]
    · have h0 := hx 0 (Nat.succ_pos n)
      rw [Nat.add_zero] at h0
      simp [h0]
    · intro i hi
      have := hx (i + 1) (Nat.succ_lt_succ hi)
      rwa [Nat.add_assoc, Nat.add_comm 1 i]

theorem wordBytes_eq_bytesAt (p : Nat) : wordBytes p = bytesAt p 4 := by
  simp [wordBytes, bytesAt, List.range, List.range.loop]

theorem storeLE_frame_bytesAt (m : Nat → Nat) (addr v n x : Nat) (h : x ∉ bytesAt addr n) :
    storeLE m addr v n x = m x := by
  apply storeLE_frame
  intro i hi hx
  apply h
  unfold bytesAt
  exact List.mem_map.mpr ⟨i, List.mem_range.mpr hi, hx.symm⟩

theorem branch_tests_frame (L : Layout) (s : State) (x : Nat)
    (h : x ∉ L.frames.branchBytes) : (branch_tests L s).2.mem x = s.mem x := by
  simp only [Frames.branchBytes, List.mem_append, not_or] at h
  simp only [branch_tests, load, store]
  rw [storeLE_frame_bytesAt _ _ _ _ _ h.2, storeLE_frame_bytesAt _ _ _ _ _ h.1]

theorem load_tests_frame (L : Layout) (s : State) (x : Nat)
    (h : x ∉ L.frames.loadBytes) : (load_tests L s).2.mem x = s.mem x := by
  simp only [Frames.loadBytes, List.mem_append, not_or] at h
  obtain ⟨⟨⟨⟨hb, hbu⟩, hh⟩, hhu⟩, hw⟩ := h
  simp only [load_tests, load, store]
  rw [storeLE_frame_bytesAt _ _ _ _ _ hw, storeLE_frame_bytesAt _ _ _ _ _ hhu,
    storeLE_frame_bytesAt _ _ _ _ _ hh, storeLE_frame_bytesAt _ _ _ _ _ hbu,
    storeLE_frame_bytesAt _ _ _ _ _ hb]

theorem store_tests_frame (L : Layout) (s : State) (x : Nat)
    (h : x ∉ wordBytes (ptr_sub_u32 L.stack_top 0x1000)) :
    (store_tests L s).2.mem x = s.mem x := by
  have h4 : x ∉ bytesAt (ptr_sub_u32 L.stack_top 0x1000) 4 := by
    rw [← wordBytes_eq_bytesAt]; exact h
  have h2 : x ∉ bytesAt (ptr_sub_u32 L.stack_top 0x1000) 2 := by
    intro hx; apply h4
    simp only [bytesAt, List.mem_map, List.mem_range] at hx ⊢
    obtain ⟨i, hi, hx⟩ := hx
    exact ⟨i, by omega, hx⟩
  have h1 : x ∉ bytesAt (ptr_sub_u32 L.stack_top 0x1000) 1 := by
    intro hx; apply h4
    simp only [bytesAt, List.mem_map, List.mem_range] at hx ⊢
    obtain ⟨i, hi, hx⟩ := hx
    exact ⟨i, by omega, hx⟩
  simp only [store_tests, store]
  rw [storeLE_frame_bytesAt _ _ _ _ _ h4, storeLE_frame_bytesAt _ _ _ _ _ h2,
    storeLE_frame_bytesAt _ _ _ _ _ h1]

theorem main_frame (L : Layout) (s : State) (x : Nat)
    (hw : x ∉ wordBytes (ptr_sub_u32 L.stack_top 0x1000)) (hl : x ∉ L.frames.bytes) :
    (main L s).2.mem x = s.mem x := by
  simp only [Frames.bytes, List.mem_append, not_or] at hl
  simp only [main, main_body, linked, call, ret, Boot.jal_test, Boot.jalr_test,
    Boot.jalr_target]
  rw [store_tests_frame L _ x hw, load_tests_frame L _ x hl.2, branch_tests_frame L _ x hl.1]

theorem load_tests_word (L : Layout) (s : State) (x : Nat)
    (hx : x ∈ wordBytes (ptr_sub_u32 L.stack_top 0x1000)) :
    (load_tests L s).2.mem x = s.mem x := by
  apply load_tests_frame
  intro hl
  exact L.frames_clear x (by simp only [Frames.bytes, List.mem_append]; exact Or.inr hl) hx

theorem ptr_sub_u32_mod (p n : Nat) : ptr_sub_u32 p n % 4294967296 = ptr_sub_u32 p n := by
  unfold ptr_sub_u32; omega

theorem load_tests_accesses (L : Layout) (s : State) :
    ((load_tests L s).2.accesses.drop s.accesses.length).map Access.shape =
      [(false, 1, ptr_sub_u32 L.stack_top 0x1000), (true, 1, L.frames.load_b % 4294967296),
       (false, 1, ptr_sub_u32 L.stack_top 0x1000), (true, 1, L.frames.load_bu % 4294967296),
       (false, 2, ptr_sub_u32 L.stack_top 0x1000), (true, 2, L.frames.load_h % 4294967296),
       (false, 2, ptr_sub_u32 L.stack_top 0x1000), (true, 2, L.frames.load_hu % 4294967296),
       (false, 4, ptr_sub_u32 L.stack_top 0x1000), (true, 4, L.frames.load_w % 4294967296)] := by
  simp [load_tests, load, store, Access.shape, ptr_sub_u32_mod]

theorem load_tests_loads (L : Layout) (s : State) :
    ((load_tests L s).2.accesses.drop s.accesses.length).filter (fun a => !a.isStore) =
      [Access.load 1 (ptr_sub_u32 L.stack_top 0x1000),
       Access.load 1 (ptr_sub_u32 L.stack_top 0x1000),
       Access.load 2 (ptr_sub_u32 L.stack_top 0x1000),
       Access.load 2 (ptr_sub_u32 L.stack_top 0x1000),
       Access.load 4 (ptr_sub_u32 L.stack_top 0x1000)] := by
  simp [load_tests, load, store, Access.shape, Access.isStore, ptr_sub_u32_mod, List.filter]

theorem main_stores (L : Layout) (s : State) :
    (((main L s).2.accesses.drop s.accesses.length).filter Access.isStore).map Access.shape =
      [(true, 4, L.frames.branch_a % 4294967296), (true, 4, L.frames.branch_b % 4294967296),
       (true, 1, L.frames.load_b % 4294967296), (true, 1, L.frames.load_bu % 4294967296),
       (true, 2, L.frames.load_h % 4294967296), (true, 2, L.frames.load_hu % 4294967296),
       (true, 4, L.frames.load_w % 4294967296),
       (true, 1, ptr_sub_u32 L.stack_top 0x1000), (true, 2, ptr_sub_u32 L.stack_top 0x1000),
       (true, 4, ptr_sub_u32 L.stack_top 0x1000)] := by
  simp [main, main_body, linked, call, ret, Boot.jal_test, Boot.jalr_test, Boot.jalr_target,
    Boot.branch_tests, Boot.load_tests, Boot.store_tests, load, store, Access.shape,
    Access.isStore, ptr_sub_u32_mod, List.filter]

/-! ## The properties -/

/-- C1: for every initial memory content (and logs) and every address of
`stack_top`, `main` returns, and the value it returns is 0. -/
theorem main_returns_zero (L : Layout) (s : State) : ∃ t : State, main L s = (0, t) :=
  ⟨(main L s).2, rfl⟩

/-- C2: for all 32-bit signed `a` and `b`, `add a b` is a 32-bit signed value
congruent to `a + b` modulo `2^32`; it equals `a + b` whenever that sum is in
the `int32_t` range; and `add 1 2 = 3`. -/
theorem add_spec (a b : Int) (ha : InInt32 a) (hb : InInt32 b) :
    InInt32 (add a b) ∧ add a b ≡ a + b [ZMOD 4294967296] ∧
      (InInt32 (a + b) → add a b = a + b) ∧ add 1 2 = 3 :=
  ⟨toInt32_inInt32 _, toInt32_modEq _, toInt32_of_inInt32 _, by decide⟩

/-- Instance of `add_spec` at an overflowing input: `INT32_MAX + 1`. -/
theorem add_spec_witness :
    InInt32 2147483647 ∧ InInt32 1 ∧
      (InInt32 (add 2147483647 1) ∧ add 2147483647 1 ≡ 2147483647 + 1 [ZMOD 4294967296] ∧
        (InInt32 (2147483647 + 1) → add 2147483647 1 = 2147483647 + 1) ∧ add 1 2 = 3) :=
  ⟨by decide, by decide, add_spec 2147483647 1 (by decide) (by decide)⟩

/-- C3: for all 32-bit signed `a` and `b`, `sub a b` is a 32-bit signed value
congruent to `a - b` modulo `2^32`; it equals `a - b` whenever that
difference is in the `int32_t` range; and `sub 3 2 = 1`. -/
theorem sub_spec (a b : Int) (ha : InInt32 a) (hb : InInt32 b) :
    InInt32 (sub a b) ∧ sub a b ≡ a - b [ZMOD 4294967296] ∧
      (InInt32 (a - b) → sub a b = a - b) ∧ sub 3 2 = 1 :=
  ⟨toInt32_inInt32 _, toInt32_modEq _, toInt32_of_inInt32 _, by decide⟩

/-- Instance of `sub_spec` at an overflowing input: `INT32_MIN - 1`. -/
theorem sub_spec_witness :
    InInt32 (-2147483648) ∧ InInt32 1 ∧
      (InInt32 (sub (-2147483648) 1) ∧
        sub (-2147483648) 1 ≡ -2147483648 - 1 [ZMOD 4294967296] ∧
        (InInt32 (-2147483648 - 1) → sub (-2147483648) 1 = -2147483648 - 1) ∧ sub 3 2 = 1) :=
  ⟨by decide, by decide, sub_spec (-2147483648) 1 (by decide) (by decide)⟩

/-- C4: for all 32-bit signed `a` and `b`, `xor_op a b` is a 32-bit signed
value whose bit `i`, for every `i` in 0..31, is set exactly when bit `i` of
`a` and bit `i` of `b` differ; and `xor_op 5 3 = 6`. -/
theorem xor_op_spec (a b : Int) (ha : InInt32 a) (hb : InInt32 b) :
    InInt32 (xor_op a b) ∧
      (∀ i : Nat, i < 32 → (bit32 (xor_op a b) i = true ↔ bit32 a i ≠ bit32 b i)) ∧
      xor_op 5 3 = 6 := by
  refine ⟨by unfold xor_op bitxor; exact toInt32_inInt32 _, ?_, by decide⟩
  intro i _
  have hlt : toUint32 a ^^^ toUint32 b < 2 ^ 32 :=
    Nat.xor_lt_two_pow (toUint32_lt a) (toUint32_lt b)
  unfold xor_op bitxor
  rw [bit32_toInt32_natCast _ i hlt, Nat.testBit_xor]
  unfold bit32
  cases (toUint32 a).testBit i <;> cases (toUint32 b).testBit i <;> simp

/-- Instance of `xor_op_spec` at `a = -5`, `b = 3`, bit 31. -/
theorem xor_op_spec_witness :
    InInt32 (-5) ∧ InInt32 3 ∧ 31 < 32 ∧
      (bit32 (xor_op (-5) 3) 31 = true ↔ bit32 (-5) 31 ≠ bit32 3 31) :=
  ⟨by decide, by decide, by decide,
    (xor_op_spec (-5) 3 (by decide) (by decide)).2.1 31 (by decide)⟩

/-- C5: for all 32-bit signed `a` and `b`, `sll a b` is a 32-bit signed value
congruent modulo `2^32` to `a * 2^(b mod 32)`, with `b mod 32` in 0..31 also
for negative `b`; hence `sll a b = sll a (b + 32)`, both when `b + 32` is
formed with 32-bit wraparound and when it is in range as it stands; and
`sll 1 2 = 4`. -/
theorem sll_spec (a b : Int) (ha : InInt32 a) (hb : InInt32 b) :
    InInt32 (sll a b) ∧
      (0 ≤ b % 32 ∧ b % 32 < 32) ∧
      sll a b ≡ a * 2 ^ (b % 32).toNat [ZMOD 4294967296] ∧
      sll a (add b 32) = sll a b ∧
      (InInt32 (b + 32) → sll a (b + 32) = sll a b) ∧
      sll 1 2 = 4 := by
  refine ⟨by unfold sll shl; exact toInt32_inInt32 _, by omega, ?_, ?_, ?_, by decide⟩
  · unfold sll
    rw [bitand_31]
    exact shl_modEq a _
  · unfold sll
    rw [bitand_31, bitand_31]
    have h : add b 32 % 32 = b % 32 := by
      unfold add toInt32
      split <;> omega
    rw [h]
  · intro _
    unfold sll
    rw [bitand_31, bitand_31]
    have h : (b + 32) % 32 = b % 32 := by omega
    rw [h]

/-- Instance of `sll_spec` at `a = -7`, `b = -1` (a shift by 31). -/
theorem sll_spec_witness :
    InInt32 (-7) ∧ InInt32 (-1) ∧
      (InInt32 (sll (-7) (-1)) ∧
        (0 ≤ (-1 : Int) % 32 ∧ (-1 : Int) % 32 < 32) ∧
        sll (-7) (-1) ≡ -7 * 2 ^ ((-1 : Int) % 32).toNat [ZMOD 4294967296] ∧
        sll (-7) (add (-1) 32) = sll (-7) (-1) ∧
        (InInt32 (-1 + 32) → sll (-7) (-1 + 32) = sll (-7) (-1)) ∧
        sll 1 2 = 4) :=
  ⟨by decide, by decide, sll_spec (-7) (-1) (by decide) (by decide)⟩

/-- C6: for all 32-bit signed `a` and `b`, `sr a b` is the arithmetic right
shift by `b mod 32` (in 0..31): it is the floor of `a / 2^(b mod 32)`, that
is the integer `q` with `q * 2^k ≤ a < (q + 1) * 2^k`; it is a 32-bit signed
value, negative when `a` is negative and non-negative when `a` is; and
`sr 8 2 = 2`. -/
theorem sr_spec (a b : Int) (ha : InInt32 a) (hb : InInt32 b) :
    InInt32 (sr a b) ∧
      (0 ≤ b % 32 ∧ b % 32 < 32) ∧
      sr a b = ⌊(a : ℚ) / 2 ^ (b % 32).toNat⌋ ∧
      (sr a b * 2 ^ (b % 32).toNat ≤ a ∧ a < (sr a b + 1) * 2 ^ (b % 32).toNat) ∧
      (a < 0 → sr a b < 0) ∧ (0 ≤ a → 0 ≤ sr a b) ∧
      sr 8 2 = 2 := by
  have hdiv : sr a b = a / 2 ^ (b % 32).toNat := by
    unfold sr shr
    rw [bitand_31, Int.shiftRight_eq_div_pow]
    norm_cast
  have hpos : (0 : Int) < 2 ^ (b % 32).toNat := by positivity
  have hlo : sr a b * 2 ^ (b % 32).toNat ≤ a := by
    rw [hdiv]; exact Int.ediv_mul_le a (ne_of_gt hpos)
  have hhi : a < (sr a b + 1) * 2 ^ (b % 32).toNat := by
    rw [hdiv]; exact Int.lt_ediv_add_one_mul_self a hpos
  have hone : (1 : Int) ≤ 2 ^ (b % 32).toNat := hpos
  unfold InInt32 at ha ⊢
  refine ⟨?_, by omega, ?_, ⟨hlo, hhi⟩, ?_, ?_, by decide⟩
  · constructor
    · by_contra hc
      have : (sr a b + 1) * 2 ^ (b % 32).toNat ≤ (sr a b + 1) * 1 := by
        apply Int.mul_le_mul_of_nonpos_left _ hone
        omega
      omega
    · by_contra hc
      have : sr a b * 1 ≤ sr a b * 2 ^ (b % 32).toNat := by
        apply Int.mul_le_mul_of_nonneg_left hone
        omega
      omega
  · rw [hdiv]
    have := Rat.floor_intCast_div_natCast a (2 ^ (b % 32).toNat)
    push_cast at this
    exact this.symm
  · intro hneg
    rw [hdiv]
    exact Int.ediv_neg' hneg hpos
  · intro hnn
    rw [hdiv]
    exact Int.ediv_nonneg hnn hpos.le

/-- Instance of `sr_spec` at `a = -7`, `b = 33` (a shift by 1). -/
theorem sr_spec_witness :
    InInt32 (-7) ∧ InInt32 33 ∧
      (InInt32 (sr (-7) 33) ∧
        (0 ≤ (33 : Int) % 32 ∧ (33 : Int) % 32 < 32) ∧
        sr (-7) 33 = ⌊((-7 : Int) : ℚ) / 2 ^ ((33 : Int) % 32).toNat⌋ ∧
        (sr (-7) 33 * 2 ^ ((33 : Int) % 32).toNat ≤ -7 ∧
          -7 < (sr (-7) 33 + 1) * 2 ^ ((33 : Int) % 32).toNat) ∧
        ((-7 : Int) < 0 → sr (-7) 33 < 0) ∧ ((0 : Int) ≤ -7 → 0 ≤ sr (-7) 33) ∧
        sr 8 2 = 2) :=
  ⟨by decide, by decide, sr_spec (-7) 33 (by decide) (by decide)⟩

/-- C7: for all 32-bit signed `a` and `b`, `slt a b` is 1 if `a < b` in signed
order and 0 otherwise, and never any other value; and `slt 1 2 = 1`. -/
theorem slt_spec (a b : Int) (ha : InInt32 a) (hb : InInt32 b) :
    (a < b → slt a b = 1) ∧ (¬ a < b → slt a b = 0) ∧
      (slt a b = 0 ∨ slt a b = 1) ∧ slt 1 2 = 1 := by
  unfold slt
  refine ⟨fun h => by simp [h], fun h => by simp [h], ?_, by decide⟩
  split <;> simp

/-- Instance of `slt_spec` at `a = -1`, `b = 0`. -/
theorem slt_spec_witness :
    InInt32 (-1) ∧ InInt32 0 ∧
      (((-1 : Int) < 0 → slt (-1) 0 = 1) ∧ (¬ (-1 : Int) < 0 → slt (-1) 0 = 0) ∧
        (slt (-1) 0 = 0 ∨ slt (-1) 0 = 1) ∧ slt 1 2 = 1) :=
  ⟨by decide, by decide, slt_spec (-1) 0 (by decide) (by decide)⟩

/-- C8: for all 32-bit unsigned `a` and `b`, `sltu a b` is 1 if `a < b` as
numbers in `[0, 2^32 - 1]` and 0 otherwise; `sltu 1 2 = 1` and
`sltu 1 0xFFFFFFFF = 1`. -/
theorem sltu_spec (a b : Nat) (ha : InUint32 a) (hb : InUint32 b) :
    (a < b → sltu a b = 1) ∧ (¬ a < b → sltu a b = 0) ∧
      (sltu a b = 0 ∨ sltu a b = 1) ∧
      sltu 1 2 = 1 ∧ sltu 1 0xFFFFFFFF = 1 := by
  unfold sltu
  refine ⟨fun h => by simp [h], fun h => by simp [h], ?_, by decide, by decide⟩
  split <;> simp

/-- Instance of `sltu_spec` at `a = 0xFFFFFFFF`, `b = 0`. -/
theorem sltu_spec_witness :
    InUint32 4294967295 ∧ InUint32 0 ∧
      ((4294967295 < 0 → sltu 4294967295 0 = 1) ∧ (¬ 4294967295 < 0 → sltu 4294967295 0 = 0) ∧
        (sltu 4294967295 0 = 0 ∨ sltu 4294967295 0 = 1) ∧
        sltu 1 2 = 1 ∧ sltu 1 0xFFFFFFFF = 1) :=
  ⟨by decide, by decide, sltu_spec 4294967295 0 (by decide) (by decide)⟩

/-- C10, amended: running `main` leaves every byte of memory outside the
four bytes of the 32-bit word at `&stack_top - 0x1000` (the word `load_tests`
and `store_tests` point at) and outside the bytes of the volatile automatic
variables of `branch_tests` and `load_tests` as it was; the stores `main`
performs are, in order, the two of `branch_tests` and the five of `load_tests`
to those variables and the three of `store_tests` to that word; the
arithmetic functions (`add` to `sr`), the immediate functions (`lui_test`,
`auipc_test`) and the jump functions (`jal_test`, `jalr_test`) change no byte
and access no memory; and `branch_tests` changes no byte outside its two
volatile variables. -/
theorem main_memory_frame (L : Layout) (s : State) (x : Nat)
    (hx : x ∉ wordBytes (ptr_sub_u32 L.stack_top 0x1000)) (hl : x ∉ L.frames.bytes) :
    (main L s).2.mem x = s.mem x ∧
      (((main L s).2.accesses.drop s.accesses.length).filter Access.isStore).map Access.shape =
        [(true, 4, L.frames.branch_a % 4294967296), (true, 4, L.frames.branch_b % 4294967296),
         (true, 1, L.frames.load_b % 4294967296), (true, 1, L.frames.load_bu % 4294967296),
         (true, 2, L.frames.load_h % 4294967296), (true, 2, L.frames.load_hu % 4294967296),
         (true, 4, L.frames.load_w % 4294967296),
         (true, 1, ptr_sub_u32 L.stack_top 0x1000), (true, 2, ptr_sub_u32 L.stack_top 0x1000),
         (true, 4, ptr_sub_u32 L.stack_top 0x1000)] ∧
      (∀ a b, NoMemoryEffect ((linked L).add a b)) ∧
      (∀ a b, NoMemoryEffect ((linked L).sub a b)) ∧
      (∀ a b, NoMemoryEffect ((linked L).xor_op a b)) ∧
      (∀ a b, NoMemoryEffect ((linked L).or_op a b)) ∧
      (∀ a b, NoMemoryEffect ((linked L).and_op a b)) ∧
      (∀ a b, NoMemoryEffect ((linked L).sll a b)) ∧
      (∀ a b, NoMemoryEffect ((linked L).slt a b)) ∧
      (∀ a b, NoMemoryEffect ((linked L).sltu a b)) ∧
      (∀ a b, NoMemoryEffect ((linked L).sr a b)) ∧
      NoMemoryEffect (linked L).lui_test ∧
      NoMemoryEffect (linked L).auipc_test ∧
      NoMemoryEffect (linked L).jal_test ∧
      NoMemoryEffect (linked L).jalr_test ∧
      (∀ t : State, ∀ y, y ∉ L.frames.branchBytes →
        ((linked L).branch_tests t).2.mem y = t.mem y) :=
  ⟨main_frame L s x hx hl, main_stores L s,
    fun _ _ _ => ⟨rfl, rfl⟩, fun _ _ _ => ⟨rfl, rfl⟩, fun _ _ _ => ⟨rfl, rfl⟩,
    fun _ _ _ => ⟨rfl, rfl⟩, fun _ _ _ => ⟨rfl, rfl⟩, fun _ _ _ => ⟨rfl, rfl⟩,
    fun _ _ _ => ⟨rfl, rfl⟩, fun _ _ _ => ⟨rfl, rfl⟩, fun _ _ _ => ⟨rfl, rfl⟩,
    fun _ => ⟨rfl, rfl⟩, fun _ => ⟨rfl, rfl⟩, fun _ => ⟨rfl, rfl⟩, fun _ => ⟨rfl, rfl⟩,
    fun t y hy => branch_tests_frame L t y hy⟩

/-- Instance of `main_memory_frame` at the sample layout and state: the byte
just below the word, at 0x8000BFFF, is no byte of a volatile variable and
keeps its value 0xA5. -/
theorem main_memory_frame_witness :
    0x8000BFFF ∉ wordBytes (ptr_sub_u32 sampleLayout.stack_top 0x1000) ∧
      0x8000BFFF ∉ sampleLayout.frames.bytes ∧
      (main sampleLayout sampleState).2.mem 0x8000BFFF = 0xA5 :=
  ⟨by decide, by decide,
    (main_memory_frame sampleLayout sampleState 0x8000BFFF (by decide) (by decide)).1⟩

/-- C10 as stated fails: at the sample layout and state the byte at
0x8000FFD8, the lowest byte of the volatile `b` of `branch_tests`, is outside
the word at `&stack_top - 0x1000`, and `main` changes it (from 0xA5 to 20);
`branch_tests` alone changes it too. -/
theorem main_memory_frame_counterexample :
    (0x8000FFD8 ∉ wordBytes (ptr_sub_u32 sampleLayout.stack_top 0x1000) ∧
        (main sampleLayout sampleState).2.mem 0x8000FFD8 ≠ sampleState.mem 0x8000FFD8) ∧
      ((linked sampleLayout).branch_tests sampleState).2.mem 0x8000FFD8 ≠
        sampleState.mem 0x8000FFD8 := by
  decide

/-! ## Lemmas on the stores of `store_tests` -/

theorem store_tests_mem (L : Layout) (s : State) :
    (store_tests L s).2.mem =
      storeLE s.mem (ptr_sub_u32 L.stack_top 0x1000) 0x12345678 4 := by
  have h1 : toUint32 0x12 = 0x12 := by decide
  have h2 : toUint32 0x1234 = 0x1234 := by decide
  have h3 : toUint32 0x12345678 = 0x12345678 := by decide
  simp only [store_tests, store, h1, h2, h3, storeLE]
  funext x
  split_ifs <;> rfl

theorem loadLE_storeLE_word (m : Nat → Nat) (p : Nat) :
    loadLE (storeLE m p 0x12345678 4) p 4 = 0x12345678 := by
  have e1 : (p + 1) % 4294967296 ≠ p % 4294967296 := by omega
  have e2 : (p + 1 + 1) % 4294967296 ≠ p % 4294967296 := by omega
  have e3 : (p + 1 + 1 + 1) % 4294967296 ≠ p % 4294967296 := by omega
  have e4 : (p + 1 + 1) % 4294967296 ≠ (p + 1) % 4294967296 := by omega
  have e5 : (p + 1 + 1 + 1) % 4294967296 ≠ (p + 1) % 4294967296 := by omega
  have e6 : (p + 1 + 1 + 1) % 4294967296 ≠ (p + 1 + 1) % 4294967296 := by omega
  simp [loadLE, storeLE, e1, e2, e3, e4, e5, e6, e1.symm, e2.symm, e3.symm, e4.symm, e5.symm, e6.symm]

theorem storeLE_word_bytes (m : Nat → Nat) (p : Nat) :
    storeLE m p 0x12345678 4 (p % 4294967296) = 0x78 ∧
      storeLE m p 0x12345678 4 ((p + 1) % 4294967296) = 0x56 ∧
      storeLE m p 0x12345678 4 ((p + 2) % 4294967296) = 0x34 ∧
      storeLE m p 0x12345678 4 ((p + 3) % 4294967296) = 0x12 := by
  have e1 : (p + 1) % 4294967296 ≠ p % 4294967296 := by omega
  have e2 : (p + 2) % 4294967296 ≠ p % 4294967296 := by omega
  have e3 : (p + 3) % 4294967296 ≠ p % 4294967296 := by omega
  have e4 : (p + 2) % 4294967296 ≠ (p + 1) % 4294967296 := by omega
  have e5 : (p + 3) % 4294967296 ≠ (p + 1) % 4294967296 := by omega
  have e6 : (p + 3) % 4294967296 ≠ (p + 2) % 4294967296 := by omega
  have a2 : p + 1 + 1 = p + 2 := rfl
  have a3 : p + 2 + 1 = p + 3 := rfl
  simp only [storeLE, a2, a3]
  refine ⟨?_, ?_, ?_, ?_⟩ <;>
    simp [e1, e2, e3, e4, e5, e6, e1.symm, e2.symm, e3.symm, e4.symm, e5.symm, e6.symm]

theorem ptr_sub_u32_lt (p n : Nat) : ptr_sub_u32 p n < 4294967296 := by
  unfold ptr_sub_u32; omega

/-! ## Lemmas on sums of bitwise results -/

theorem toInt32_congr (x y : Int) (h : x ≡ y [ZMOD 4294967296]) : toInt32 x = toInt32 y := by
  unfold Int.ModEq at h
  unfold toInt32
  rw [h]

theorem lor_add_land (p : Nat) : ∀ q : Nat, (p ||| q) + (p &&& q) = p + q := by
  induction p using Nat.binaryRec with
  | z => intro q; simp
  | f b p ih =>
    intro q
    induction q using Nat.bitCasesOn with
    | h c q =>
      rw [Nat.lor_bit, Nat.land_bit]
      have := ih q
      simp only [Nat.bit_val]
      cases b <;> cases c <;> simp <;> omega

theorem xor_add_two_mul_land (p : Nat) : ∀ q : Nat, (p ^^^ q) + 2 * (p &&& q) = p + q := by
  induction p using Nat.binaryRec with
  | z => intro q; simp
  | f b p ih =>
    intro q
    induction q using Nat.bitCasesOn with
    | h c q =>
      rw [Nat.xor_bit, Nat.land_bit]
      have := ih q
      simp only [Nat.bit_val]
      cases b <;> cases c <;> simp <;> omega

theorem add_toInt32 (x y : Int) : add (toInt32 x) (toInt32 y) = toInt32 (x + y) := by
  unfold add
  exact toInt32_congr _ _ ((toInt32_modEq x).add (toInt32_modEq y))

theorem natCast_add_toUint32 (a b : Int) :
    ((toUint32 a + toUint32 b : Nat) : Int) ≡ a + b [ZMOD 4294967296] := by
  push_cast
  exact (toUint32_modEq a).add (toUint32_modEq b)

theorem land_lt (p q : Nat) (hp : p < 4294967296) : p &&& q < 4294967296 :=
  lt_of_le_of_lt Nat.and_le_left hp

theorem sll_one (x : Int) : sll x 1 = toInt32 ((toUint32 x * 2 : Nat) : Int) := by
  have h1 : (bitand 1 31).toNat = 1 := by decide
  unfold sll shl
  rw [h1, Nat.shiftLeft_eq]

/-! ## Properties of the memory tests, the immediates and the jumps -/

/-- C11: for every initial memory, a 32-bit load from the address
`store_tests` writes to yields 0x12345678 after `store_tests`, also as a
signed word; the memory after the three stores is the memory after the word
store alone, so the byte store of 0x12 and the halfword store of 0x1234 leave
no trace; the four bytes are 0x78, 0x56, 0x34, 0x12 from the lowest address
up; and the word loaded is the same whatever state `store_tests` started in. -/
theorem store_tests_word (L : Layout) (s : State) :
    (load 4 (ptr_sub_u32 L.stack_top 0x1000) (store_tests L s).2).1 = 0x12345678 ∧
      signExtend 32 (load 4 (ptr_sub_u32 L.stack_top 0x1000) (store_tests L s).2).1
        = 0x12345678 ∧
      (store_tests L s).2.mem =
        storeLE s.mem (ptr_sub_u32 L.stack_top 0x1000) 0x12345678 4 ∧
      ((store_tests L s).2.mem (ptr_sub_u32 L.stack_top 0x1000) = 0x78 ∧
        (store_tests L s).2.mem ((ptr_sub_u32 L.stack_top 0x1000 + 1) % 4294967296) = 0x56 ∧
        (store_tests L s).2.mem ((ptr_sub_u32 L.stack_top 0x1000 + 2) % 4294967296) = 0x34 ∧
        (store_tests L s).2.mem ((ptr_sub_u32 L.stack_top 0x1000 + 3) % 4294967296) = 0x12) ∧
      (∀ t : State,
        (load 4 (ptr_sub_u32 L.stack_top 0x1000) (store_tests L t).2).1 =
          (load 4 (ptr_sub_u32 L.stack_top 0x1000) (store_tests L s).2).1) := by
  have hw : ∀ t : State,
      (load 4 (ptr_sub_u32 L.stack_top 0x1000) (store_tests L t).2).1 = 0x12345678 := by
    intro t
    show loadLE (store_tests L t).2.mem (ptr_sub_u32 L.stack_top 0x1000) 4 = 0x12345678
    rw [store_tests_mem, loadLE_storeLE_word]
  have hp := ptr_sub_u32_lt L.stack_top 0x1000
  refine ⟨hw s, ?_, store_tests_mem L s, ?_, fun t => (hw t).trans (hw s).symm⟩
  · rw [hw s]; decide
  · rw [store_tests_mem]
    have e0 : ptr_sub_u32 L.stack_top 0x1000 % 4294967296 = ptr_sub_u32 L.stack_top 0x1000 := by
      omega
    have hb := storeLE_word_bytes s.mem (ptr_sub_u32 L.stack_top 0x1000)
    rw [e0] at hb
    exact hb

/-- C12: the five loads of `load_tests` and the three stores of
`store_tests` are all at one address, `&stack_top - 0x1000` in elements of
`uint32_t`: that is `stack_top - 0x4000` in bytes modulo `2^32` (plainly
`stack_top - 0x4000` when `stack_top` is a 32-bit address of at least
0x4000), and it is not the address 0x1000 bytes below `stack_top`;
`load_tests` stores to its five volatile variables only, one store after each
load, and leaves every byte of the word at that address, and every byte
outside those variables, as it was. -/
theorem load_store_address (L : Layout) (s : State) :
    ((load_tests L s).2.accesses.drop s.accesses.length).filter (fun a => !a.isStore) =
        [Access.load 1 (ptr_sub_u32 L.stack_top 0x1000),
         Access.load 1 (ptr_sub_u32 L.stack_top 0x1000),
         Access.load 2 (ptr_sub_u32 L.stack_top 0x1000),
         Access.load 2 (ptr_sub_u32 L.stack_top 0x1000),
         Access.load 4 (ptr_sub_u32 L.stack_top 0x1000)] ∧
      (store_tests L s).2.accesses = s.accesses ++
        [Access.store 1 (ptr_sub_u32 L.stack_top 0x1000) 0x12,
         Access.store 2 (ptr_sub_u32 L.stack_top 0x1000) 0x1234,
         Access.store 4 (ptr_sub_u32 L.stack_top 0x1000) 0x12345678] ∧
      ptr_sub_u32 L.stack_top 0x1000 = (L.stack_top + (4294967296 - 0x4000)) % 4294967296 ∧
      (0x4000 ≤ L.stack_top → L.stack_top < 4294967296 →
        ptr_sub_u32 L.stack_top 0x1000 = L.stack_top - 0x4000) ∧
      ptr_sub_u32 L.stack_top 0x1000 ≠ (L.stack_top + (4294967296 - 0x1000)) % 4294967296 ∧
      (∀ x, x ∈ wordBytes (ptr_sub_u32 L.stack_top 0x1000) →
        (load_tests L s).2.mem x = s.mem x) ∧
      (∀ x, x ∉ L.frames.loadBytes → (load_tests L s).2.mem x = s.mem x) ∧
      ((load_tests L s).2.accesses.drop s.accesses.length).map Access.shape =
        [(false, 1, ptr_sub_u32 L.stack_top 0x1000), (true, 1, L.frames.load_b % 4294967296),
         (false, 1, ptr_sub_u32 L.stack_top 0x1000), (true, 1, L.frames.load_bu % 4294967296),
         (false, 2, ptr_sub_u32 L.stack_top 0x1000), (true, 2, L.frames.load_h % 4294967296),
         (false, 2, ptr_sub_u32 L.stack_top 0x1000), (true, 2, L.frames.load_hu % 4294967296),
         (false, 4, ptr_sub_u32 L.stack_top 0x1000),
         (true, 4, L.frames.load_w % 4294967296)] := by
  have h1 : toUint32 0x12 = 0x12 := by decide
  have h2 : toUint32 0x1234 = 0x1234 := by decide
  have h3 : toUint32 0x12345678 = 0x12345678 := by decide
  have hp := ptr_sub_u32_mod L.stack_top 0x1000
  refine ⟨load_tests_loads L s, ?_, ?_, ?_, ?_, fun x hx => load_tests_word L s x hx,
    fun x hx => load_tests_frame L s x hx, load_tests_accesses L s⟩
  · simp [store_tests, store, h1, h2, h3, hp]
  · unfold ptr_sub_u32; omega
  · intro _ _; unfold ptr_sub_u32; omega
  · unfold ptr_sub_u32; omega

/-- Instance of `load_store_address` at the sample layout: with `stack_top`
at 0x80010000 the address accessed is 0x8000C000. -/
theorem load_store_address_witness :
    0x4000 ≤ sampleLayout.stack_top ∧ sampleLayout.stack_top < 4294967296 ∧
      ptr_sub_u32 sampleLayout.stack_top 0x1000 = sampleLayout.stack_top - 0x4000 :=
  ⟨by decide, by decide,
    (load_store_address sampleLayout sampleState).2.2.2.1 (by decide) (by decide)⟩

/-- C13: `lui_test` is 0x12345000, that is 305418240, a 32-bit signed value
whose bits 0..11 are all zero; it equals `sll 0x12345 12`, and it is the value
a single `LUI` with the 20-bit immediate 0x12345 writes. -/
theorem lui_test_value :
    lui_test = 0x12345000 ∧ lui_test = 305418240 ∧ InInt32 lui_test ∧
      (∀ i : Nat, i < 12 → bit32 lui_test i = false) ∧
      lui_test % 4096 = 0 ∧
      lui_test = sll 0x12345 12 ∧
      (0x12345 < 1048576 ∧ lui_test = luiValue 0x12345) := by
  refine ⟨rfl, rfl, by decide, by decide, by decide, by decide, by decide, by decide⟩

/-- Instance of `lui_test_value` at bit 11. -/
theorem lui_test_value_witness : 11 < 12 ∧ bit32 lui_test 11 = false :=
  ⟨by decide, lui_test_value.2.2.2.1 11 (by decide)⟩

/-- C15: for all 32-bit signed `a` and `b`, `slt a b` and `sltu` on the bit
patterns of `a` and `b` differ exactly when one of `a`, `b` is negative and
the other is not; when both are negative or both non-negative they agree. -/
theorem slt_sltu_compare (a b : Int) (ha : InInt32 a) (hb : InInt32 b) :
    (slt a b ≠ sltu (toUint32 a) (toUint32 b) ↔ (a < 0 ∧ 0 ≤ b) ∨ (0 ≤ a ∧ b < 0)) ∧
      (((a < 0 ∧ b < 0) ∨ (0 ≤ a ∧ 0 ≤ b)) → slt a b = sltu (toUint32 a) (toUint32 b)) := by
  unfold InInt32 at ha hb
  unfold slt sltu toUint32
  constructor
  · constructor
    · intro h
      by_contra hc
      apply h
      split_ifs <;> first | rfl | omega
    · intro h
      split_ifs <;> omega
  · intro h
    split_ifs <;> first | rfl | omega

/-- Instance of `slt_sltu_compare` at `a = -1`, `b = 0`, where the two
comparisons differ. -/
theorem slt_sltu_compare_witness :
    InInt32 (-1) ∧ InInt32 0 ∧
      ((slt (-1) 0 ≠ sltu (toUint32 (-1)) (toUint32 0) ↔
          ((-1 : Int) < 0 ∧ (0 : Int) ≤ 0) ∨ ((0 : Int) ≤ -1 ∧ (0 : Int) < 0)) ∧
        ((((-1 : Int) < 0 ∧ (0 : Int) < 0) ∨ ((0 : Int) ≤ -1 ∧ (0 : Int) ≤ 0)) →
          slt (-1) 0 = sltu (toUint32 (-1)) (toUint32 0))) :=
  ⟨by decide, by decide, slt_sltu_compare (-1) 0 (by decide) (by decide)⟩

/-- C16: for all 32-bit signed `a` and `b`, overflowing ones included,
`sub (add a b) b = a` and `add (sub a b) b = a`. -/
theorem add_sub_inverse (a b : Int) (ha : InInt32 a) (hb : InInt32 b) :
    sub (add a b) b = a ∧ add (sub a b) b = a := by
  unfold InInt32 at ha hb
  constructor
  · have h : sub (add a b) b = toInt32 a := by
      unfold sub add
      apply toInt32_congr
      exact (toInt32_modEq (a + b)).sub_right b |>.trans (by simp [Int.ModEq])
    rw [h, toInt32_of_inInt32 a ha]
  · have h : add (sub a b) b = toInt32 a := by
      unfold sub add
      apply toInt32_congr
      exact (toInt32_modEq (a - b)).add_right b |>.trans (by simp [Int.ModEq])
    rw [h, toInt32_of_inInt32 a ha]

/-- Instance of `add_sub_inverse` at `INT32_MAX` and 1, where the sum taken
first overflows. -/
theorem add_sub_inverse_witness :
    InInt32 2147483647 ∧ InInt32 1 ∧
      (sub (add 2147483647 1) 1 = 2147483647 ∧ add (sub 2147483647 1) 1 = 2147483647) :=
  ⟨by decide, by decide, add_sub_inverse 2147483647 1 (by decide) (by decide)⟩

/-- C17: for all 32-bit signed `a` and `b`,
`add (or_op a b) (and_op a b) = add a b` and
`add (xor_op a b) (sll (and_op a b) 1) = add a b`, `add` being the sum
modulo `2^32`. -/
theorem bitwise_add_consistent (a b : Int) (ha : InInt32 a) (hb : InInt32 b) :
    add (or_op a b) (and_op a b) = add a b ∧
      add (xor_op a b) (sll (and_op a b) 1) = add a b := by
  constructor
  · unfold or_op and_op bitor bitand
    rw [add_toInt32]
    have h := lor_add_land (toUint32 a) (toUint32 b)
    unfold add
    apply toInt32_congr
    have h2 : ((toUint32 a ||| toUint32 b : Nat) : Int) + ((toUint32 a &&& toUint32 b : Nat) : Int)
        = ((toUint32 a + toUint32 b : Nat) : Int) := by
      rw [← h]; push_cast; rfl
    rw [h2]
    exact natCast_add_toUint32 a b
  · rw [sll_one]
    unfold xor_op and_op bitxor bitand
    rw [toUint32_toInt32, toUint32_natCast _ (land_lt _ _ (toUint32_lt a)), add_toInt32]
    have h := xor_add_two_mul_land (toUint32 a) (toUint32 b)
    unfold add
    apply toInt32_congr
    have h2 : ((toUint32 a ^^^ toUint32 b : Nat) : Int)
        + (((toUint32 a &&& toUint32 b) * 2 : Nat) : Int)
        = ((toUint32 a + toUint32 b : Nat) : Int) := by
      rw [← h]; push_cast; ring
    rw [h2]
    exact natCast_add_toUint32 a b

/-- Instance of `bitwise_add_consistent` at `a = -5`, `b = 3`. -/
theorem bitwise_add_consistent_witness :
    InInt32 (-5) ∧ InInt32 3 ∧
      (add (or_op (-5) 3) (and_op (-5) 3) = add (-5) 3 ∧
        add (xor_op (-5) 3) (sll (and_op (-5) 3) 1) = add (-5) 3) :=
  ⟨by decide, by decide, bitwise_add_consistent (-5) 3 (by decide) (by decide)⟩

end Boot
